import Mathlib

/-!
Verification development for the stock-screener application (`src/app.py`).

The pipeline under study is the verification/scoring stage of the app:
symbol normalization, per-ticker market-data retrieval with fallbacks,
derived-metric computation (drawdown from high, 14-period RSI, volume
ratio), a threshold scoring rule with a recommendation tag, batch
collection, and a final sort of the result table by score.

Embedding conventions:
* Python strings are modelled as `List Char`; `str.upper` is modelled on
  the ASCII range (`Char.toUpper`), which is exact for the ticker data the
  program manipulates.
* Python floats are modelled as `ℚ`; the float value `NaN` (which arises
  in the program only as the RSI of a too-short or constant price series)
  is modelled explicitly by the constructor `RsiVal.nan`, and every
  comparison the program performs against it is `False`, as in IEEE
  arithmetic.
* The external collaborators (`yfinance` field lookups and history
  download) are modelled as an environment record `TickerEnv`; a field of
  type `Except Unit α` is `.error ()` exactly when the corresponding
  Python call raises.  A `dict.get`-style lookup distinguishes an absent
  key from a key that is present with value `None` (`Field` below).
* The per-ticker function `verify_stock_yahoo` wraps its body in
  `try ... except: return None`; accordingly the embedding is a total
  function into `Option`, and every modelled exception path returns
  `none`.
-/

namespace StockScreener

/-! ## Python string primitives -/

/-- One left-to-right pass of Python `str.replace` for a nonempty needle
`o :: os`: at each position, if the needle matches, emit `new` and resume
after the matched block (non-overlapping), else keep the character.
The first argument is recursion fuel; every step consumes at least one
character of the subject string, so fuel equal to its length always
suffices and the fuel-exhausted branch is never reached from
`pyReplace`. -/
def pyReplaceGo (o : Char) (os new : List Char) : Nat → List Char → List Char
  | 0, s => s
  | _ + 1, [] => []
  | fuel + 1, c :: cs =>
    if (o :: os).isPrefixOf (c :: cs) then
      new ++ pyReplaceGo o os new fuel (cs.drop os.length)
    else
      c :: pyReplaceGo o os new fuel cs

/-- Python `s.replace(old, new)`.  Every call site in `app.py` passes a
nonempty `old`; the `old = []` case is therefore irrelevant and left as
the identity. -/
def pyReplace (s old new : List Char) : List Char :=
  match old with
  | [] => s
  | o :: os => pyReplaceGo o os new s.length s

/-- Decides whether `old` occurs as a contiguous substring of `s`. -/
def containsSub (old : List Char) : List Char → Bool
  | [] => old.isEmpty
  | c :: cs => old.isPrefixOf (c :: cs) || containsSub old cs

/-- ASCII whitespace recognized by Python `str.strip()`:
space, tab, newline, carriage return, vertical tab, form feed. -/
def pyIsSpace (c : Char) : Bool :=
  c = ' ' || c = '\t' || c = '\n' || c = '\r' || c = Char.ofNat 11 || c = Char.ofNat 12

/-- Python `s.strip()`: drop whitespace from both ends. -/
def pyStrip (s : List Char) : List Char :=
  ((s.dropWhile pyIsSpace).reverse.dropWhile pyIsSpace).reverse

/-- Python `s.upper()` on the ASCII range (`Char.toUpper` maps `a`-`z` to
`A`-`Z` and fixes everything else). -/
def pyUpper (s : List Char) : List Char :=
  s.map Char.toUpper

/-- Python `s.split(',')`: split at every comma, keeping empty pieces
(`"".split(',') == ['']`). -/
def splitComma : List Char → List (List Char)
  | [] => [[]]
  | c :: cs =>
    if c = ',' then [] :: splitComma cs
    else
      match splitComma cs with
      | [] => [[c]]
      | t :: ts => (c :: t) :: ts

/-! ## Symbol normalization (`app.py` lines 79-82)

`symbol.strip().upper()` followed by
`.replace('.', '-').replace('NASDAQ:', '').replace('NYSE:', '')`. -/

def normalize (s : List Char) : List Char :=
  pyReplace (pyReplace (pyReplace (pyUpper (pyStrip s))
    ".".toList "-".toList) "NASDAQ:".toList []) "NYSE:".toList []

/-! ## Recommendation-text parsing (`app.py` lines 70-72)

`raw_text = response.text.replace('\n', '').replace('`', '').replace('"', '').replace("'", "")`
then `tickers = [t.strip().upper() for t in raw_text.split(',') if t.strip()]`.
The backtick, double-quote and single-quote characters are written via
their code points to keep the file free of quoting surprises. -/

def parsePicks (raw : List Char) : List (List Char) :=
  let cleaned :=
    pyReplace (pyReplace (pyReplace (pyReplace raw
      "\n".toList []) [Char.ofNat 96] []) [Char.ofNat 34] []) [Char.ofNat 39] []
  ((splitComma cleaned).filter (fun t => !(pyStrip t).isEmpty)).map
    (fun t => pyUpper (pyStrip t))

/-! ## The yfinance environment -/

/-- A Python numeric-or-`None` value. -/
abbrev PyVal := Option ℚ

/-- One key of the `info` dict: `none` when the key is absent, and
`some v` when the key is present with value `v` (which may itself be the
Python `None`, i.e. `v = none`). -/
abbrev Field := Option PyVal

/-- Python `info.get(key, dflt)`: the stored value when the key is
present (even when that value is `None`), else the default. -/
def pyGet (f : Field) (dflt : PyVal) : PyVal :=
  f.getD dflt

/-- The `ticker.info` fields read by `verify_stock_yahoo`. -/
structure YInfo where
  currentPrice : Field
  regularMarketPrice : Field
  forwardPE : Field
  trailingPE : Field
  sector : Option String
  shortName : Option String
  fiftyTwoWeekHigh : Field
deriving DecidableEq

/-- The `info = {}` fallback installed when `ticker.info` raises. -/
def emptyInfo : YInfo :=
  ⟨none, none, none, none, none, none, none⟩

/-- One row of `ticker.history(period="3mo")`: close and volume. -/
structure Bar where
  close : ℚ
  volume : ℚ
deriving DecidableEq

/-- Everything the outside world hands `verify_stock_yahoo` for one
ticker; each `Except` is `.error ()` when the Python call raises. -/
structure TickerEnv where
  infoResult : Except Unit YInfo
  fastLastPrice : Except Unit ℚ
  histResult : Except Unit (List Bar)

/-! ## RSI (`pandas_ta.rsi(close, length=14)`)

`pandas_ta.rsi` validates its input with `verify_series(close, length)`,
which returns `None` whenever the series has fewer than `length = 14`
rows, making `rsi` itself return `None`.  Otherwise it computes
`100 * rma(up) / (rma(up) + rma(down))` where `up`/`down` clamp the
one-step differences and `rma` is `ewm(alpha=1/14, min_periods=14).mean()`.
The first difference is `NaN`, so the last `ewm` value is defined only
when at least 15 closes are present (14 non-`NaN` differences); with
exactly 14 closes the last RSI value is float `NaN`.  A constant series
yields `0/0 = NaN` as well.  The adjusted `ewm` mean at the last position
is the `(13/14)`-geometrically-weighted average of the differences, most
recent first. -/

/-- `series.diff(1)` without its leading `NaN`: the consecutive
differences of a list. -/
def pyDiffs : List ℚ → List ℚ
  | [] => []
  | [_] => []
  | a :: b :: rest => (b - a) :: pyDiffs (b :: rest)

/-- Weighted sum `x₀ + q·x₁ + q²·x₂ + ⋯` of a list. -/
def geomSum (q : ℚ) : List ℚ → ℚ
  | [] => 0
  | x :: xs => x + q * geomSum q xs

/-- Last value of `xs.ewm(alpha=1/14, min_periods=14).mean()` for a list
with no `NaN`s: weights `(13/14)^k`, most recent observation first. -/
def rmaLast (xs : List ℚ) : ℚ :=
  geomSum (13/14) xs.reverse / geomSum (13/14) (List.replicate xs.length 1)

/-- A float RSI value: a number, or the float `NaN`. -/
inductive RsiVal where
  | nan : RsiVal
  | val : ℚ → RsiVal
deriving DecidableEq

/-- Last entry of `pandas_ta.rsi(close, length=14)`: `none` models the
library returning Python `None` for a series of fewer than 14 rows. -/
def ta_rsi_last (closes : List ℚ) : Option RsiVal :=
  if closes.length < 14 then none
  else
    let ds := pyDiffs closes
    if ds.length < 14 then some .nan
    else
      let pa := rmaLast (ds.map (fun d => if d < 0 then 0 else d))
      let na := rmaLast (ds.map (fun d => if 0 < d then 0 else -d))
      if pa + na = 0 then some .nan
      else some (.val (100 * pa / (pa + na)))

/-! ## Derived metrics (`app.py` lines 84-130) -/

/-- `hist['Close'].max()` (the list is nonempty at every use site; the
empty case is irrelevant). -/
def listMax : List ℚ → ℚ
  | [] => 0
  | [x] => x
  | x :: xs => let m := listMax xs; if m < x then x else m

/-- Sum of a list of rationals. -/
def listSum : List ℚ → ℚ
  | [] => 0
  | x :: xs => x + listSum xs

/-- The resolved current price (`app.py` lines 96-99): the fast-path
`ticker.fast_info['last_price']`, else
`info.get('currentPrice', info.get('regularMarketPrice', 0.0))`.
The result is a `PyVal` because the fallback chain can surface a Python
`None` stored under one of the keys. -/
def resolvedPrice (e : TickerEnv) : PyVal :=
  let info := match e.infoResult with
    | .ok i => i
    | .error _ => emptyInfo
  match e.fastLastPrice with
  | .ok p => some p
  | .error _ => pyGet info.currentPrice (pyGet info.regularMarketPrice (some 0))

/-- The resolved valuation ratio (`app.py` line 105-106):
`pe = info.get('forwardPE', info.get('trailingPE', 0.0))` followed by
`if pe is None: pe = 0.0`. -/
def resolvedPE (info : YInfo) : ℚ :=
  (pyGet info.forwardPE (pyGet info.trailingPE (some 0))).getD 0

/-- The data computed by lines 84-130 of `verify_stock_yahoo`, handed to
the scoring block. -/
structure Metrics where
  clean : List Char
  name : String
  sector : String
  price : ℚ
  pe : ℚ
  drop_pct : ℚ
  rsi : RsiVal
  vol_ratio : ℚ
deriving DecidableEq

/-- Retrieval and metric derivation, `app.py` lines 79-130.  Every
modelled exception path (history call raising, `pandas_ta.rsi` returning
`None` so that `.empty` raises `AttributeError`, arithmetic on a `None`
price raising `TypeError`) falls into the function-wide
`except Exception: return None` and yields `none`. -/
def metricsOf (symbol : List Char) (e : TickerEnv) : Option Metrics :=
  let clean := normalize symbol
  let info := match e.infoResult with
    | .ok i => i
    | .error _ => emptyInfo
  let curr := resolvedPrice e
  if curr = some 0 then none
  else
    let pe := resolvedPE info
    let sector := info.sector.getD "Unknown"
    let name := info.shortName.getD (String.mk clean)
    match e.histResult with
    | .error _ => none
    | .ok hist =>
      if hist.isEmpty then none
      else
        let closes := hist.map Bar.close
        match curr with
        | none => none
        | some cp =>
          let high0 : PyVal := pyGet info.fiftyTwoWeekHigh (some (listMax closes))
          let high : ℚ := match high0 with
            | none => cp
            | some h => if h = 0 then cp else h
          let drop_pct := (cp - high) / high
          match ta_rsi_last closes with
          | none => none
          | some rsi =>
            let vols := hist.map Bar.volume
            let vol_today := vols.getLastD 0
            let vol_avg := listSum vols / (vols.length : ℚ)
            let vol_ratio := if 0 < vol_avg then vol_today / vol_avg else 1
            some ⟨clean, name, sector, cp, pe, drop_pct, rsi, vol_ratio⟩

/-! ## Scoring (`app.py` lines 132-167) -/

/-- Float comparison `r < x` where `r` may be `NaN` (always `False`). -/
def rsiLtB (r : RsiVal) (x : ℚ) : Bool :=
  match r with
  | .val q => decide (q < x)
  | .nan => false

/-- Float comparison `r > x` where `r` may be `NaN` (always `False`). -/
def rsiGtB (r : RsiVal) (x : ℚ) : Bool :=
  match r with
  | .val q => decide (x < q)
  | .nan => false

/-- The accumulation of `score` and `reasons`, lines 133-151:
drawdown below −15% adds 40, RSI below 40 adds 30 (an RSI above 70 only
appends a label), a valuation ratio strictly between 0 and 25 adds 30,
and a volume ratio above 1.5 adds 10. -/
def score_reasons (drop_pct : ℚ) (rsi : RsiVal) (pe vol_ratio : ℚ) : ℕ × List String :=
  let sr : ℕ × List String := (0, [])
  let sr := if drop_pct < -(15/100) then (sr.1 + 40, sr.2 ++ ["超跌"]) else sr
  let sr :=
    if rsiLtB rsi 40 then (sr.1 + 30, sr.2 ++ ["RSI超卖"])
    else if rsiGtB rsi 70 then (sr.1, sr.2 ++ ["RSI超买"])
    else sr
  let sr := if 0 < pe ∧ pe < 25 then (sr.1 + 30, sr.2 ++ ["低估值"]) else sr
  let sr := if 3/2 < vol_ratio then (sr.1 + 10, sr.2 ++ ["放量"]) else sr
  sr

/-- The stored score `min(score, 100)` (line 165) as a function of
numeric derived metrics. -/
def ai_score (drop_pct rsi pe vol_ratio : ℚ) : ℕ :=
  min (score_reasons drop_pct (.val rsi) pe vol_ratio).1 100

/-- One row of the result table (unrounded; the `round(..., k)` and
percent-formatting applied to the displayed copies of the numeric fields
are presentation-only and no claim depends on them). -/
structure ScoredRow where
  code : List Char
  name : String
  sector : String
  price : ℚ
  pe : ℚ
  drop_pct : ℚ
  rsi : RsiVal
  vol_ratio : ℚ
  score : ℕ
  tag : String
deriving DecidableEq

/-- Lines 132-167: score, the "too calm" suppression
`if drop_pct > -0.05 and rsi > 50: return None`, and the result record
with capped score and space-joined tag (`"平稳"` when no label fired). -/
def scoreStage (m : Metrics) : Option ScoredRow :=
  let sr := score_reasons m.drop_pct m.rsi m.pe m.vol_ratio
  if -(5/100) < m.drop_pct ∧ rsiGtB m.rsi 50 then none
  else
    some
      { code := m.clean, name := m.name, sector := m.sector, price := m.price,
        pe := m.pe, drop_pct := m.drop_pct, rsi := m.rsi,
        vol_ratio := m.vol_ratio, score := min sr.1 100,
        tag := if sr.2.isEmpty then "平稳" else String.intercalate " " sr.2 }

/-- The whole per-ticker verification (`verify_stock_yahoo`). -/
def verify_stock_yahoo (symbol : List Char) (e : TickerEnv) : Option ScoredRow :=
  (metricsOf symbol e).bind scoreStage

/-! ## Batch loop and final sort (`app.py` lines 226-244) -/

/-- The batch loop: call `verify_stock_yahoo` per ticker and keep the
rows that came back (`if data: results.append(data)`; a returned row dict
is always nonempty, hence always truthy). -/
def runBatch (targets : List (List Char × TickerEnv)) : List ScoredRow :=
  targets.filterMap (fun t => verify_stock_yahoo t.1 t.2)

/-- Stable ascending insertion by score: an element is inserted after
every earlier element of strictly smaller score and before the first
element of greater-or-equal score seen from the right; processing the
input left to right keeps equal-score elements in input order. -/
def insertAsc (x : ScoredRow) : List ScoredRow → List ScoredRow
  | [] => [x]
  | y :: ys => if y.score < x.score then y :: insertAsc x ys else x :: y :: ys

/-- Stable ascending insertion sort by score. -/
def sortAscByScore : List ScoredRow → List ScoredRow
  | [] => []
  | x :: xs => insertAsc x (sortAscByScore xs)

/-- `pd.DataFrame(results).sort_values(by="AI评分", ascending=False)`:
pandas (`pandas.core.sorting.nargsort`) computes an ascending argsort and
then reverses the whole indexer for `ascending=False`; numpy's default
quicksort runs as a stable insertion sort on arrays shorter than 16
elements, which covers every batch this program produces (5-8 tickers).
The modelled behavior is therefore a stable ascending sort followed by a
reversal. -/
def sort_values_desc (rows : List ScoredRow) : List ScoredRow :=
  (sortAscByScore rows).reverse

/-- The final table handed to the UI and the CSV export. -/
def finalTable (targets : List (List Char × TickerEnv)) : List ScoredRow :=
  sort_values_desc (runBatch targets)

/-! ## Concrete inputs used by witnesses and counterexamples -/

/-- A 3-month history with closes rising 1, 2, ..., 15 (unit volume):
every difference is +1, so the RSI evaluates to 100. -/
def barsUp : List Bar :=
  [⟨1, 1⟩, ⟨2, 1⟩, ⟨3, 1⟩, ⟨4, 1⟩, ⟨5, 1⟩, ⟨6, 1⟩, ⟨7, 1⟩, ⟨8, 1⟩,
   ⟨9, 1⟩, ⟨10, 1⟩, ⟨11, 1⟩, ⟨12, 1⟩, ⟨13, 1⟩, ⟨14, 1⟩, ⟨15, 1⟩]

/-- A 3-month history with closes falling 15, 14, ..., 1 (unit volume):
every difference is −1, so the RSI evaluates to 0. -/
def barsDown : List Bar :=
  [⟨15, 1⟩, ⟨14, 1⟩, ⟨13, 1⟩, ⟨12, 1⟩, ⟨11, 1⟩, ⟨10, 1⟩, ⟨9, 1⟩, ⟨8, 1⟩,
   ⟨7, 1⟩, ⟨6, 1⟩, ⟨5, 1⟩, ⟨4, 1⟩, ⟨3, 1⟩, ⟨2, 1⟩, ⟨1, 1⟩]

/-- A ticker at its high with RSI 100: drawdown 0 and RSI above 50, so
the "too calm" filter fires. -/
def envUp : TickerEnv :=
  ⟨.ok emptyInfo, .ok 15, .ok barsUp⟩

/-- A beaten-down ticker (price 1 against a high of 15, RSI 0): survives
every check and scores 40 + 30 = 70. -/
def envDown : TickerEnv :=
  ⟨.ok emptyInfo, .ok 1, .ok barsDown⟩

/-- An environment whose resolved current price is 0. -/
def envZeroPrice : TickerEnv :=
  ⟨.ok emptyInfo, .ok 0, .ok barsDown⟩

/-- An environment whose retrieved history is empty. -/
def envEmptyHist : TickerEnv :=
  ⟨.ok emptyInfo, .ok 5, .ok []⟩

/-- An environment whose non-empty history has only 5 rows — fewer than
the 14 observations `pandas_ta.rsi` needs. -/
def envShortHist : TickerEnv :=
  ⟨.ok emptyInfo, .ok 5, .ok [⟨10, 1⟩, ⟨11, 1⟩, ⟨9, 1⟩, ⟨10, 1⟩, ⟨12, 1⟩]⟩

/-- The derived metrics of `envUp`. -/
def mUp : Metrics :=
  ⟨"AAPL".toList, "AAPL", "Unknown", 15, 0, 0, .val 100, 1⟩

/-- An `info` dict carrying `forwardPE: None` alongside a numeric
`trailingPE: 20`. -/
def infoNullForward : YInfo :=
  ⟨none, none, some none, some (some 20), none, none, none⟩

/-- Metrics of an overbought ticker: RSI 80, drawdown −20%. -/
def mOverbought : Metrics :=
  ⟨"X".toList, "X", "Unknown", 1, 0, -(1/5), .val 80, 1⟩

/-- The row `scoreStage` produces from `mOverbought`. -/
def rowOverbought : ScoredRow :=
  ⟨"X".toList, "X", "Unknown", 1, 0, -(1/5), .val 80, 1, 40, "超跌 RSI超买"⟩

/-- A two-ticker batch whose rows tie at score 70, in input order
`AAA`, `BBB`. -/
def tiedBatch : List (List Char × TickerEnv) :=
  [("AAA".toList, envDown), ("BBB".toList, envDown)]

/-- A five-ticker batch of which exactly two fail retrieval (one
unresolved price, one empty history). -/
def fiveBatch : List (List Char × TickerEnv) :=
  [("AAA".toList, envDown), ("BBB".toList, envZeroPrice), ("CCC".toList, envDown),
   ("DDD".toList, envEmptyHist), ("EEE".toList, envDown)]

/-! ## Claims -/


/-- C1: the scoring function is a deterministic, pure, total function of
the derived metrics, equal to the capped sum of four independent bonuses:
+40 for drawdown below −0.15, +30 for RSI below 40, +30 for a valuation
ratio strictly between 0 and 25, +10 for a volume ratio above 1.5, capped
at 100; at drawdown −0.20, RSI 30, valuation 20, volume ratio 1.0 the
score is 100, and with valuation 0 instead it is 70 (a valuation ratio of
0 never earns the +30 bonus). -/
theorem c1_scoring_rule :
    (∀ d r p v : ℚ, ai_score d r p v =
      min ((if d < -(15/100) then 40 else 0) + (if r < 40 then 30 else 0)
        + (if 0 < p ∧ p < 25 then 30 else 0) + (if 3/2 < v then 10 else 0)) 100)
    ∧ (∀ d r p v : ℚ, ai_score d r p v ≤ 100)
    ∧ ai_score (-(20/100)) 30 20 1 = 100
    ∧ ai_score (-(20/100)) 30 0 1 = 70 := by
  have key : ∀ d r p v : ℚ, ai_score d r p v =
      min ((if d < -(15/100) then 40 else 0) + (if r < 40 then 30 else 0)
        + (if 0 < p ∧ p < 25 then 30 else 0) + (if 3/2 < v then 10 else 0)) 100 := by
    intro d r p v
    unfold ai_score score_reasons rsiLtB rsiGtB
    simp only [decide_eq_true_eq]
    split_ifs <;> omega
  refine ⟨key, fun d r p v => ?_, ?_, ?_⟩
  · rw [key]
    omega
  · rw [key]
    norm_num
  · rw [key]
    norm_num

/-- C7: the recommendation parser removes newlines, backticks and quote
characters, splits on commas, trims and uppercases each token, drops
empty tokens and keeps the rest in order without deduplication; in
particular `parse("AAPL, MSFT,\n`TTD`") = ["AAPL","MSFT","TTD"]`,
`parse("") = []`, `parse(",, ,") = []`, and a duplicated ticker is kept
twice in order. -/
theorem c7_parse_examples :
    parsePicks "AAPL, MSFT,\n`TTD`".toList = ["AAPL".toList, "MSFT".toList, "TTD".toList]
    ∧ parsePicks "".toList = []
    ∧ parsePicks ",, ,".toList = []
    ∧ parsePicks "aapl,AAPL".toList = ["AAPL".toList, "AAPL".toList] := by
  decide

/-- C8: the symbol normalizer strips surrounding whitespace, uppercases,
removes the exchange-prefix tokens `NASDAQ:` / `NYSE:` and turns every
dot into a dash; in particular `normalize("nasdaq:brk.b") = "BRK-B"`,
and likewise on a whitespace-padded `NYSE:`-prefixed input. -/
theorem c8_normalize_examples :
    normalize "nasdaq:brk.b".toList = "BRK-B".toList
    ∧ normalize "  nyse:aapl ".toList = "AAPL".toList
    ∧ normalize " brk.b".toList = "BRK-B".toList := by
  decide


/-! ### Shared evaluation helpers -/

/-- Evaluating the pipeline on the rising history: drawdown 0, RSI 100,
valuation and volume neutral. -/
theorem metricsOf_envUp (sym : List Char) :
    metricsOf sym envUp =
      some ⟨normalize sym, String.mk (normalize sym), "Unknown", 15, 0, 0, .val 100, 1⟩ := by
  norm_num [metricsOf, envUp, barsUp, emptyInfo, resolvedPrice, resolvedPE, pyGet,
    listMax, listSum, ta_rsi_last, pyDiffs, rmaLast, geomSum, List.replicate]

/-- Evaluating the pipeline on the falling history: price 1 against a
high of 15, RSI 0, score 70, tag `超跌 RSI超卖`. -/
theorem verify_envDown (sym : List Char) :
    verify_stock_yahoo sym envDown =
      some ⟨normalize sym, String.mk (normalize sym), "Unknown", 1, 0, -(14/15), .val 0, 1,
        70, "超跌 RSI超卖"⟩ := by
  norm_num [verify_stock_yahoo, metricsOf, envDown, barsDown, emptyInfo, resolvedPrice,
    resolvedPE, pyGet, listMax, listSum, ta_rsi_last, pyDiffs, rmaLast, geomSum,
    List.replicate, scoreStage, score_reasons, rsiLtB, rsiGtB, Option.bind,
    String.intercalate]
  decide

/-- C2: whenever the derived metrics of a ticker satisfy
drawdown > −0.05 and RSI > 50, the "too calm" filter drops the ticker:
`verify_stock_yahoo` returns no result, whatever the score would have
been. -/
theorem c2_calm_filter (sym : List Char) (e : TickerEnv) (m : Metrics)
    (hm : metricsOf sym e = some m) (hd : -(5/100) < m.drop_pct)
    (hr : rsiGtB m.rsi 50 = true) :
    verify_stock_yahoo sym e = none := by
  unfold verify_stock_yahoo
  rw [hm]
  simp [Option.bind, scoreStage, hd, hr]

/-- Witness for C2: on the rising history the drawdown is 0, the RSI is
100, and the ticker is indeed suppressed. -/
theorem c2_calm_filter_witness :
    (metricsOf "AAPL".toList envUp = some mUp
      ∧ -(5/100) < mUp.drop_pct ∧ rsiGtB mUp.rsi 50 = true)
    ∧ verify_stock_yahoo "AAPL".toList envUp = none := by
  have h1 : metricsOf "AAPL".toList envUp = some mUp := by
    rw [metricsOf_envUp]
    decide
  have h2 : -(5/100 : ℚ) < mUp.drop_pct := by norm_num [mUp]
  have h3 : rsiGtB mUp.rsi 50 = true := by norm_num [mUp, rsiGtB]
  exact ⟨⟨h1, h2, h3⟩, c2_calm_filter _ _ _ h1 h2 h3⟩

/-- C3: an unresolved (zero) current price yields no result; an empty —
or failing — history retrieval yields no result; and the batch loop
keeps exactly the tickers that produced a result, so N tickers of which
K fail give a table of N − K rows (totality of the embedded functions
being the no-exception-escapes part of the claim). -/
theorem c3_failure_handling :
    (∀ (sym : List Char) (e : TickerEnv), resolvedPrice e = some 0 →
        verify_stock_yahoo sym e = none)
    ∧ (∀ (sym : List Char) (e : TickerEnv), e.histResult = .ok [] →
        verify_stock_yahoo sym e = none)
    ∧ (∀ (sym : List Char) (e : TickerEnv), e.histResult = .error () →
        verify_stock_yahoo sym e = none)
    ∧ (∀ targets : List (List Char × TickerEnv),
        (runBatch targets).length
          + targets.countP (fun t => (verify_stock_yahoo t.1 t.2).isNone)
          = targets.length) := by
  refine ⟨?_, ?_, ?_, ?_⟩
  · intro sym e h
    simp [verify_stock_yahoo, metricsOf, h]
  · intro sym e h
    by_cases hc : resolvedPrice e = some 0
    · simp [verify_stock_yahoo, metricsOf, hc]
    · simp [verify_stock_yahoo, metricsOf, hc, h]
  · intro sym e h
    by_cases hc : resolvedPrice e = some 0
    · simp [verify_stock_yahoo, metricsOf, hc]
    · simp [verify_stock_yahoo, metricsOf, hc, h]
  · intro targets
    induction targets with
    | nil => rfl
    | cons t ts ih =>
      rw [runBatch, List.filterMap_cons, List.countP_cons]
      rw [runBatch] at ih
      cases h : verify_stock_yahoo t.1 t.2 with
      | none =>
        simp only [h, Option.isNone_none, if_true, List.length_cons]
        omega
      | some r =>
        simp only [h, Option.isNone_some, Bool.false_eq_true, if_false, List.length_cons]
        omega

/-- Witness for C3: a zero-price ticker and an empty-history ticker are
both dropped, and the five-ticker batch with those two failures yields
exactly three rows. -/
theorem c3_failure_handling_witness :
    (resolvedPrice envZeroPrice = some 0
      ∧ verify_stock_yahoo "BBB".toList envZeroPrice = none)
    ∧ (envEmptyHist.histResult = .ok []
      ∧ verify_stock_yahoo "DDD".toList envEmptyHist = none)
    ∧ (runBatch fiveBatch).length = 3
    ∧ fiveBatch.countP (fun t => (verify_stock_yahoo t.1 t.2).isNone) = 2 := by
  have h1 : resolvedPrice envZeroPrice = some 0 := rfl
  have h2 : envEmptyHist.histResult = .ok ([] : List Bar) := rfl
  have hcount : fiveBatch.countP (fun t => (verify_stock_yahoo t.1 t.2).isNone) = 2 := by
    rw [fiveBatch]
    rw [List.countP_cons, List.countP_cons, List.countP_cons, List.countP_cons,
      List.countP_cons, List.countP_nil]
    rw [verify_envDown "AAA".toList, verify_envDown "CCC".toList,
      verify_envDown "EEE".toList]
    rw [c3_failure_handling.1 "BBB".toList envZeroPrice h1,
      c3_failure_handling.2.1 "DDD".toList envEmptyHist h2]
    rfl
  have hlen := c3_failure_handling.2.2.2 fiveBatch
  have h5 : fiveBatch.length = 5 := rfl
  refine ⟨⟨h1, c3_failure_handling.1 _ _ h1⟩, ⟨h2, c3_failure_handling.2.1 _ _ h2⟩, ?_, hcount⟩
  omega

/-- C5: the code path that was meant to default a hard-to-compute RSI to
the neutral 50.0 is unreachable: for any non-empty history of fewer than
14 rows, `pandas_ta.rsi` returns `None` (not an empty series), the
`rsi_series.empty` attribute access raises, and the surrounding
`except` drops the ticker entirely instead of scoring it with RSI 50. -/
theorem c5_short_series_dropped (sym : List Char) (e : TickerEnv)
    (hist : List Bar) (h : e.histResult = .ok hist) (hlen : hist.length < 14) :
    verify_stock_yahoo sym e = none := by
  by_cases hc : resolvedPrice e = some 0
  · simp [verify_stock_yahoo, metricsOf, hc]
  · have hrsi : ta_rsi_last (hist.map Bar.close) = none := by
      rw [ta_rsi_last, if_pos]
      rw [List.length_map]
      exact hlen
    cases hcur : resolvedPrice e with
    | none => simp [verify_stock_yahoo, metricsOf, hcur, h, hrsi]
    | some cp => simp [verify_stock_yahoo, metricsOf, hcur, hc, h, hrsi]

/-- Witness for C5: a five-row history is non-empty and shorter than 14
rows, and the ticker is dropped. -/
theorem c5_short_series_dropped_witness :
    (envShortHist.histResult = .ok [⟨10, 1⟩, ⟨11, 1⟩, ⟨9, 1⟩, ⟨10, 1⟩, ⟨12, 1⟩]
      ∧ ([⟨10, 1⟩, ⟨11, 1⟩, ⟨9, 1⟩, ⟨10, 1⟩, ⟨12, 1⟩] : List Bar).length < 14)
    ∧ verify_stock_yahoo "SHORT".toList envShortHist = none := by
  have h : envShortHist.histResult = .ok [⟨10, 1⟩, ⟨11, 1⟩, ⟨9, 1⟩, ⟨10, 1⟩, ⟨12, 1⟩] := rfl
  exact ⟨⟨h, by norm_num⟩, c5_short_series_dropped _ _ _ h (by norm_num)⟩

/-- C6 counterexample: with `forwardPE` present but `None` and a numeric
`trailingPE` of 20, the resolved valuation ratio is 0 — the trailing
value is not used, and the ratio is 0 although the two fields are not
both null-or-absent. -/
theorem c6_pe_null_forward_cex :
    resolvedPE infoNullForward = 0
    ∧ infoNullForward.forwardPE = some none
    ∧ infoNullForward.trailingPE = some (some 20)
    ∧ resolvedPE infoNullForward ≠ 20 := by
  refine ⟨rfl, rfl, rfl, ?_⟩
  have : resolvedPE infoNullForward = 0 := rfl
  rw [this]
  norm_num

/-- C6 amended: the valuation ratio takes the forward field value
whenever the forward key is present (a stored null yields 0 without
consulting the trailing field); only when the forward key is absent is
the trailing field consulted (its value if numeric, 0 if null or
absent). -/
theorem c6_pe_resolution_amended (info : YInfo) :
    resolvedPE info =
      match info.forwardPE with
      | some (some q) => q
      | some none => 0
      | none =>
        match info.trailingPE with
        | some (some q) => q
        | some none => 0
        | none => 0 := by
  rcases info with ⟨_, _, f, t, _, _, _⟩
  rcases f with _ | f
  · rcases t with _ | t
    · rfl
    · rcases t with _ | q <;> rfl
  · rcases f with _ | q <;> rfl


/-! ### Insertion-sort lemmas for C4 -/

theorem mem_insertAsc {z x : ScoredRow} :
    ∀ {l : List ScoredRow}, z ∈ insertAsc x l → z = x ∨ z ∈ l := by
  intro l
  induction l with
  | nil =>
    intro h
    rw [insertAsc] at h
    exact .inl (List.mem_singleton.1 h)
  | cons y ys ih =>
    intro h
    rw [insertAsc] at h
    by_cases hc : y.score < x.score
    · rw [if_pos hc] at h
      rcases List.mem_cons.1 h with rfl | h2
      · exact .inr (List.mem_cons_self _ _)
      · rcases ih h2 with h3 | h3
        · exact .inl h3
        · exact .inr (List.mem_cons_of_mem _ h3)
    · rw [if_neg hc] at h
      rcases List.mem_cons.1 h with rfl | h2
      · exact .inl rfl
      · exact .inr h2

theorem pairwise_insertAsc (x : ScoredRow) :
    ∀ l : List ScoredRow, l.Pairwise (fun a b => a.score ≤ b.score) →
      (insertAsc x l).Pairwise (fun a b => a.score ≤ b.score) := by
  intro l
  induction l with
  | nil =>
    intro _
    rw [insertAsc]
    simp
  | cons y ys ih =>
    intro h
    rw [List.pairwise_cons] at h
    rw [insertAsc]
    by_cases hc : y.score < x.score
    · rw [if_pos hc, List.pairwise_cons]
      refine ⟨fun z hz => ?_, ih h.2⟩
      rcases mem_insertAsc hz with rfl | hz2
      · omega
      · exact h.1 z hz2
    · rw [if_neg hc, List.pairwise_cons]
      refine ⟨fun z hz => ?_, List.pairwise_cons.2 h⟩
      rcases List.mem_cons.1 hz with rfl | hz2
      · omega
      · have := h.1 z hz2
        omega

theorem perm_insertAsc (x : ScoredRow) :
    ∀ l : List ScoredRow, (insertAsc x l).Perm (x :: l) := by
  intro l
  induction l with
  | nil => exact List.Perm.refl _
  | cons y ys ih =>
    rw [insertAsc]
    by_cases hc : y.score < x.score
    · rw [if_pos hc]
      exact (ih.cons y).trans (List.Perm.swap x y ys)
    · rw [if_neg hc]

theorem sortAsc_pairwise (l : List ScoredRow) :
    (sortAscByScore l).Pairwise (fun a b => a.score ≤ b.score) := by
  induction l with
  | nil =>
    rw [sortAscByScore]
    exact List.Pairwise.nil
  | cons x xs ih =>
    rw [sortAscByScore]
    exact pairwise_insertAsc x _ ih

theorem sortAsc_perm (l : List ScoredRow) : (sortAscByScore l).Perm l := by
  induction l with
  | nil => exact List.Perm.refl _
  | cons x xs ih =>
    rw [sortAscByScore]
    exact (perm_insertAsc x _).trans (ih.cons x)

theorem insertAsc_of_forall_eq (x : ScoredRow) (l : List ScoredRow)
    (h : ∀ y ∈ l, y.score = x.score) : insertAsc x l = x :: l := by
  cases l with
  | nil => rfl
  | cons y ys =>
    rw [insertAsc, if_neg]
    have := h y (List.mem_cons_self _ _)
    omega

theorem sortAsc_of_const_score :
    ∀ (l : List ScoredRow) (n : ℕ), (∀ a ∈ l, a.score = n) → sortAscByScore l = l := by
  intro l
  induction l with
  | nil => intro n _; rfl
  | cons x xs ih =>
    intro n h
    rw [sortAscByScore, ih n (fun a ha => h a (List.mem_cons_of_mem _ ha))]
    refine insertAsc_of_forall_eq x xs (fun y hy => ?_)
    rw [h y (List.mem_cons_of_mem _ hy), h x (List.mem_cons_self _ _)]

/-- C4 counterexample: two tickers processed in input order `AAA`,
`BBB` tie at score 70, and the final table lists them as `BBB`, `AAA` —
the relative order of equal-score rows is reversed, not preserved. -/
theorem c4_sort_not_stable_cex :
    (runBatch tiedBatch).map ScoredRow.score = [70, 70]
    ∧ (runBatch tiedBatch).map ScoredRow.code = ["AAA".toList, "BBB".toList]
    ∧ (finalTable tiedBatch).map ScoredRow.code = ["BBB".toList, "AAA".toList] := by
  have hrun : runBatch tiedBatch =
      [⟨normalize "AAA".toList, String.mk (normalize "AAA".toList), "Unknown", 1, 0,
        -(14/15), .val 0, 1, 70, "超跌 RSI超卖"⟩,
       ⟨normalize "BBB".toList, String.mk (normalize "BBB".toList), "Unknown", 1, 0,
        -(14/15), .val 0, 1, 70, "超跌 RSI超卖"⟩] := by
    simp [runBatch, tiedBatch, verify_envDown]
  refine ⟨?_, ?_, ?_⟩
  · rw [hrun]
    rfl
  · rw [hrun]
    decide
  · rw [finalTable, hrun, sort_values_desc]
    rw [sortAscByScore, sortAscByScore, sortAscByScore]
    rw [insertAsc, insertAsc]
    decide

/-- C4 amended: the final table is a permutation of the collected
results sorted descending by score, but tie order is NOT input order:
pandas reverses a stable ascending sort for `ascending=False`, so a
batch of equal-score rows comes out in reversed input order. -/
theorem c4_sort_desc_amended :
    (∀ rows : List ScoredRow,
        (sort_values_desc rows).Pairwise (fun a b => b.score ≤ a.score))
    ∧ (∀ rows : List ScoredRow, (sort_values_desc rows).Perm rows)
    ∧ (∀ (rows : List ScoredRow) (n : ℕ),
        rows.map ScoredRow.score = List.replicate rows.length n →
        sort_values_desc rows = rows.reverse) := by
  refine ⟨?_, ?_, ?_⟩
  · intro rows
    rw [sort_values_desc]
    exact List.pairwise_reverse.2 (sortAsc_pairwise rows)
  · intro rows
    rw [sort_values_desc]
    exact (List.reverse_perm _).trans (sortAsc_perm rows)
  · intro rows n h
    rw [sort_values_desc, sortAsc_of_const_score rows n (List.map_eq_replicate_iff.1 h)]

/-- Witness for C4 (amended): the tied two-ticker batch has constant
score 70 and its final table is exactly the reversed batch. -/
theorem c4_sort_desc_amended_witness :
    ((runBatch tiedBatch).map ScoredRow.score
        = List.replicate (runBatch tiedBatch).length 70)
    ∧ sort_values_desc (runBatch tiedBatch) = (runBatch tiedBatch).reverse := by
  have hrun : runBatch tiedBatch =
      [⟨normalize "AAA".toList, String.mk (normalize "AAA".toList), "Unknown", 1, 0,
        -(14/15), .val 0, 1, 70, "超跌 RSI超卖"⟩,
       ⟨normalize "BBB".toList, String.mk (normalize "BBB".toList), "Unknown", 1, 0,
        -(14/15), .val 0, 1, 70, "超跌 RSI超卖"⟩] := by
    simp [runBatch, tiedBatch, verify_envDown]
  have hmap : (runBatch tiedBatch).map ScoredRow.score
      = List.replicate (runBatch tiedBatch).length 70 := by
    rw [hrun]
    rfl
  exact ⟨hmap, c4_sort_desc_amended.2.2 _ 70 hmap⟩



/-! ### Tag and score-breakdown lemmas for C10 -/

theorem tag_cases (d : ℚ) (r : RsiVal) (p v : ℚ) :
    (if (score_reasons d r p v).2.isEmpty then "平稳"
      else String.intercalate " " (score_reasons d r p v).2) ≠ ""
    ∧ ((if (score_reasons d r p v).2.isEmpty then "平稳"
      else String.intercalate " " (score_reasons d r p v).2) = "平稳"
        ↔ (score_reasons d r p v).2 = []) := by
  simp only [score_reasons]
  split_ifs <;> first | decide | simp_all

theorem overbought_facts (d q p v : ℚ) (hq : 70 < q) :
    "RSI超买" ∈ (score_reasons d (.val q) p v).2
    ∧ (score_reasons d (.val q) p v).1
        = (if d < -(15/100) then 40 else 0) + (if 0 < p ∧ p < 25 then 30 else 0)
          + (if 3/2 < v then 10 else 0) := by
  have h40 : rsiLtB (.val q) 40 = false := by
    simp only [rsiLtB, decide_eq_false_iff_not, not_lt]
    linarith
  have h70 : rsiGtB (.val q) 70 = true := by
    simp only [rsiGtB, decide_eq_true_eq]
    exact hq
  simp only [score_reasons, h40, h70, Bool.false_eq_true, if_false, if_true]
  split_ifs <;> exact ⟨by decide, by norm_num⟩

/-- C10: every produced result row has a non-empty tag; the tag is the
fallback `平稳` exactly when no label fired; and an RSI above 70 puts the
overbought label `RSI超买` among the labels while contributing nothing
to the score (the capped score is the sum of the drawdown, valuation and
volume bonuses alone). -/
theorem c10_tag_invariant (m : Metrics) (row : ScoredRow)
    (h : scoreStage m = some row) :
    row.tag ≠ ""
    ∧ (row.tag = "平稳" ↔ (score_reasons m.drop_pct m.rsi m.pe m.vol_ratio).2 = [])
    ∧ (rsiGtB m.rsi 70 = true →
        "RSI超买" ∈ (score_reasons m.drop_pct m.rsi m.pe m.vol_ratio).2
        ∧ row.score = min ((if m.drop_pct < -(15/100) then 40 else 0)
            + (if 0 < m.pe ∧ m.pe < 25 then 30 else 0)
            + (if 3/2 < m.vol_ratio then 10 else 0)) 100) := by
  rw [scoreStage] at h
  by_cases hs : (-(5/100) < m.drop_pct ∧ rsiGtB m.rsi 50 = true)
  · rw [if_pos hs] at h
    exact absurd h (by simp)
  · rw [if_neg hs] at h
    have hrow := Option.some.inj h
    subst hrow
    refine ⟨(tag_cases m.drop_pct m.rsi m.pe m.vol_ratio).1,
      (tag_cases m.drop_pct m.rsi m.pe m.vol_ratio).2, fun h70 => ?_⟩
    cases hr : m.rsi with
    | nan =>
      rw [hr] at h70
      exact absurd h70 (by simp [rsiGtB])
    | val q =>
      rw [hr] at h70
      have hq : 70 < q := by
        have := h70
        rw [rsiGtB] at this
        exact of_decide_eq_true this
      have hob := overbought_facts m.drop_pct q m.pe m.vol_ratio hq
      constructor
      · exact hob.1
      · show min (score_reasons m.drop_pct (.val q) m.pe m.vol_ratio).1 100 = _
        rw [hob.2]

/-- Witness for C10: the overbought metrics produce a row whose tag is
`超跌 RSI超买`, non-empty and distinct from the fallback, with the
overbought label present and no score contribution from it. -/
theorem c10_tag_invariant_witness :
    (scoreStage mOverbought = some rowOverbought
      ∧ rsiGtB mOverbought.rsi 70 = true)
    ∧ rowOverbought.tag ≠ ""
    ∧ (rowOverbought.tag = "平稳"
        ↔ (score_reasons mOverbought.drop_pct mOverbought.rsi mOverbought.pe
            mOverbought.vol_ratio).2 = [])
    ∧ "RSI超买" ∈ (score_reasons mOverbought.drop_pct mOverbought.rsi mOverbought.pe
        mOverbought.vol_ratio).2 := by
  have htag : String.intercalate " " ["超跌", "RSI超买"] = "超跌 RSI超买" := by decide
  have hss : scoreStage mOverbought = some rowOverbought := by
    norm_num [scoreStage, score_reasons, mOverbought, rowOverbought, rsiLtB, rsiGtB, htag]
  have h70 : rsiGtB mOverbought.rsi 70 = true := by norm_num [mOverbought, rsiGtB]
  have h := c10_tag_invariant mOverbought rowOverbought hss
  exact ⟨⟨hss, h70⟩, h.1, h.2.1, (h.2.2 h70).1⟩



/-! ### Character and replacement lemmas for C9 -/

theorem char_toNat_ofNat_valid (n : Nat) (h : n.isValidChar) :
    (Char.ofNat n).toNat = n := by
  simp [Char.ofNat, h, Char.ofNatAux, Char.toNat, UInt32.toNat, BitVec.toNat_ofNatLt]

theorem char_toUpper_idem (c : Char) : c.toUpper.toUpper = c.toUpper := by
  unfold Char.toUpper
  by_cases h : c.toNat ≥ 97 ∧ c.toNat ≤ 122
  · rw [if_pos h]
    have hv : (c.toNat - 32).isValidChar := by
      unfold Nat.isValidChar
      left
      omega
    have ht : (Char.ofNat (c.toNat - 32)).toNat = c.toNat - 32 :=
      char_toNat_ofNat_valid _ hv
    rw [if_neg]
    rw [ht]
    omega
  · rw [if_neg h, if_neg h]

theorem mem_pyReplaceGo {c : Char} (o : Char) (os new : List Char) :
    ∀ (fuel : Nat) (s : List Char), c ∈ pyReplaceGo o os new fuel s → c ∈ s ∨ c ∈ new := by
  intro fuel
  induction fuel with
  | zero =>
    intro s h
    exact .inl h
  | succ n ih =>
    intro s h
    cases s with
    | nil =>
      rw [pyReplaceGo] at h
      exact .inl h
    | cons x xs =>
      rw [pyReplaceGo] at h
      by_cases hp : (o :: os).isPrefixOf (x :: xs) = true
      · rw [if_pos hp] at h
        rcases List.mem_append.1 h with hn | hr
        · exact .inr hn
        · rcases ih _ hr with hs | hn
          · exact .inl (List.mem_cons_of_mem x (List.mem_of_mem_drop hs))
          · exact .inr hn
      · rw [if_neg hp] at h
        rcases List.mem_cons.1 h with rfl | hr
        · exact .inl (List.mem_cons_self _ _)
        · rcases ih _ hr with hs | hn
          · exact .inl (List.mem_cons_of_mem _ hs)
          · exact .inr hn

theorem mem_pyReplace {c : Char} {s old new : List Char}
    (h : c ∈ pyReplace s old new) : c ∈ s ∨ c ∈ new := by
  cases old with
  | nil => exact .inl h
  | cons o os => exact mem_pyReplaceGo o os new _ _ h

theorem pyReplaceGo_eq_self (o : Char) (os new : List Char) :
    ∀ (fuel : Nat) (s : List Char), containsSub (o :: os) s = false →
      pyReplaceGo o os new fuel s = s := by
  intro fuel
  induction fuel with
  | zero =>
    intro s _
    rfl
  | succ n ih =>
    intro s hc
    cases s with
    | nil => rfl
    | cons x xs =>
      rw [containsSub, Bool.or_eq_false_iff] at hc
      rw [pyReplaceGo, if_neg]
      · rw [ih xs hc.2]
      · rw [hc.1]
        exact Bool.false_ne_true

theorem pyReplace_eq_self {s old new : List Char} (h : containsSub old s = false) :
    pyReplace s old new = s := by
  cases old with
  | nil => rfl
  | cons o os => exact pyReplaceGo_eq_self o os new _ s h

theorem not_mem_pyReplaceGo_single (o : Char) (new : List Char) (hn : o ∉ new) :
    ∀ (fuel : Nat) (s : List Char), s.length ≤ fuel →
      o ∉ pyReplaceGo o [] new fuel s := by
  intro fuel
  induction fuel with
  | zero =>
    intro s hl
    have hz : s = [] := List.length_eq_zero.1 (Nat.le_zero.1 hl)
    subst hz
    intro h
    exact absurd h (List.not_mem_nil o)
  | succ n ih =>
    intro s hl
    cases s with
    | nil =>
      intro h
      rw [pyReplaceGo] at h
      exact absurd h (List.not_mem_nil o)
    | cons x xs =>
      have hxs : xs.length ≤ n := by
        rw [List.length_cons] at hl
        omega
      rw [pyReplaceGo]
      by_cases hp : ([o]).isPrefixOf (x :: xs) = true
      · rw [if_pos hp]
        intro hmem
        rcases List.mem_append.1 hmem with h1 | h2
        · exact hn h1
        · rw [List.length_nil, List.drop_zero] at h2
          exact ih xs hxs h2
      · rw [if_neg hp]
        intro hmem
        rcases List.mem_cons.1 hmem with rfl | h2
        · apply hp
          simp [List.isPrefixOf]
        · exact ih xs hxs h2

theorem not_dot_normalize (x : List Char) : ('.' : Char) ∉ normalize x := by
  intro h
  rw [normalize] at h
  rcases mem_pyReplace h with h2 | h2
  · rcases mem_pyReplace h2 with h3 | h3
    · rw [show (".".toList) = ['.'] from rfl, show ("-".toList) = ['-'] from rfl,
        pyReplace] at h3
      exact not_mem_pyReplaceGo_single '.' ['-'] (by decide) _ _ (Nat.le_refl _) h3
    · exact absurd h3 (List.not_mem_nil _)
  · exact absurd h2 (List.not_mem_nil _)

theorem toUpper_fix_of_mem_normalize (x : List Char) :
    ∀ c ∈ normalize x, Char.toUpper c = c := by
  intro c hc
  rw [normalize] at hc
  rcases mem_pyReplace hc with h2 | h2
  · rcases mem_pyReplace h2 with h3 | h3
    · rcases mem_pyReplace h3 with h4 | h4
      · rw [pyUpper] at h4
        rcases List.mem_map.1 h4 with ⟨d, _, rfl⟩
        exact char_toUpper_idem d
      · have hd : c = '-' := by
          rw [show ("-".toList) = ['-'] from rfl] at h4
          exact List.mem_singleton.1 h4
        subst hd
        decide
    · exact absurd h3 (List.not_mem_nil _)
  · exact absurd h2 (List.not_mem_nil _)

theorem pyUpper_fix (y : List Char) (h : ∀ c ∈ y, Char.toUpper c = c) :
    pyUpper y = y := by
  rw [pyUpper]
  have hmap : y.map Char.toUpper = y.map id :=
    List.map_congr_left (fun a ha => by rw [h a ha]; rfl)
  rw [hmap, List.map_id]

theorem containsSub_single_eq_false {o : Char} :
    ∀ {s : List Char}, o ∉ s → containsSub [o] s = false := by
  intro s
  induction s with
  | nil => intro _; rfl
  | cons x xs ih =>
    intro h
    rw [containsSub]
    have hne : ¬(o = x) := fun he => h (he ▸ List.mem_cons_self _ _)
    have h1 : ([o]).isPrefixOf (x :: xs) = false := by
      simp [List.isPrefixOf, hne]
    rw [h1, ih (fun hm => h (List.mem_cons_of_mem _ hm))]
    rfl

/-- C9 counterexample: removing one `NASDAQ:` occurrence can splice a
new one together, so a second normalization strips further:
`normalize("NASDNASDAQ:AQ:A") = "NASDAQ:A"` but normalizing again gives
`"A"`. -/
theorem c9_idem_cex :
    normalize "NASDNASDAQ:AQ:A".toList = "NASDAQ:A".toList
    ∧ normalize (normalize "NASDNASDAQ:AQ:A".toList) ≠ normalize "NASDNASDAQ:AQ:A".toList := by
  decide

/-- C9 amended: the normalizer is idempotent on every input whose
normalized form contains no residual `NASDAQ:` or `NYSE:` occurrence and
no leading or trailing whitespace (the counterexample shows idempotence
fails precisely when a removal creates a new occurrence or exposes edge
whitespace). -/
theorem c9_normalize_idem_amended (x : List Char)
    (h1 : containsSub "NASDAQ:".toList (normalize x) = false)
    (h2 : containsSub "NYSE:".toList (normalize x) = false)
    (h3 : pyStrip (normalize x) = normalize x) :
    normalize (normalize x) = normalize x := by
  have hdot : containsSub ['.'] (normalize x) = false :=
    containsSub_single_eq_false (not_dot_normalize x)
  conv_lhs => rw [normalize]
  rw [h3]
  rw [pyUpper_fix _ (toUpper_fix_of_mem_normalize x)]
  rw [show (".".toList) = ['.'] from rfl]
  rw [pyReplace_eq_self hdot]
  rw [pyReplace_eq_self h1, pyReplace_eq_self h2]

/-- Witness for C9 (amended): `normalize("nasdaq:brk.b") = "BRK-B"`
satisfies the side conditions, and a second normalization fixes it. -/
theorem c9_normalize_idem_amended_witness :
    (containsSub "NASDAQ:".toList (normalize "nasdaq:brk.b".toList) = false
      ∧ containsSub "NYSE:".toList (normalize "nasdaq:brk.b".toList) = false
      ∧ pyStrip (normalize "nasdaq:brk.b".toList) = normalize "nasdaq:brk.b".toList)
    ∧ normalize (normalize "nasdaq:brk.b".toList) = normalize "nasdaq:brk.b".toList :=
  ⟨⟨by decide, by decide, by decide⟩,
    c9_normalize_idem_amended _ (by decide) (by decide) (by decide)⟩


end StockScreener
